import Mathlib

/-!
Shallow embedding of the ath_dsp filter core (dsp/Filter.h, dsp/FIR.h,
math/Math.h) and proofs about it.

The C++ code is templated over a scalar type `T` and performs plain
field arithmetic; we model exact arithmetic over an arbitrary linear
ordered field `K` (instantiated at `ℚ` for concrete evaluation and at
`ℝ` where a claim speaks of real arithmetic).  Decimal literals of the
source (`0.5`, `0.1`, `2.0`) are modelled by the corresponding exact
rationals.  `Math::fpi` is the binary32 floating-point value of pi,
which is the exact rational 13176795 / 2^22; the embedding uses that
exact value.
-/

namespace AthDsp

variable {K : Type*} [LinearOrderedField K]

namespace Math

/-- Math.h `max`: `a > b ? a : b`. -/
def fmax (a b : K) : K := if a > b then a else b

/-- Math.h `min`: `a < b ? a : b`. -/
def fmin (a b : K) : K := if a < b then a else b

/-- Math.h `clamp`: `min(max(x, a), b)`. -/
def clamp (x a b : K) : K := fmin (fmax x a) b

/-- Math.h `lerp`: `a + (b - a) * t`. -/
def lerp (a b t : K) : K := a + (b - a) * t

/-- Math.h `fpi`: the binary32 value of pi (`std::numbers::pi_v<float>`),
exactly 13176795 / 2^22. -/
def fpi : ℚ := 13176795 / 4194304

end Math

namespace Filter

/-- Filter.h `normFrequencyToG`: `g = freq * fpi; g / (g + 1)`.
Stated over `ℚ` because the source constant `Math::fpi` is a fixed
binary32 value. -/
def normFrequencyToG (freq : ℚ) : ℚ :=
  let g := freq * Math.fpi
  g / (g + 1)

/-- Filter.h `frequencyToG`: `normFrequencyToG (freq * sampleT)`. -/
def frequencyToG (freq sampleT : ℚ) : ℚ := normFrequencyToG (freq * sampleT)

/-- Filter.h `timeToG`: `freq = 0.5 * sampleT / time; normFrequencyToG freq`. -/
def timeToG (time sampleT : ℚ) : ℚ := normFrequencyToG (1/2 * sampleT / time)

namespace Naive

/-- Filter.h `Naive::processLP`: `y += (x - y) * g; return y`.  Returns the
updated state, which is also the output. -/
def processLP (x y g : K) : K := y + (x - y) * g

/-- Iterates `Naive::processLP` over an input list from state `y`,
collecting the outputs. -/
def runLP (g : K) (y : K) : List K → List K
  | [] => []
  | x :: xs =>
    let y2 := processLP x y g
    y2 :: runLP g y2 xs

/-- Iterates `Naive::processLP` with a constant input `x`, `n` times, from
state `0` (the spec scenario "480 calls to process(1.0) starting at 0"). -/
def constIter (g x : K) : ℕ → K
  | 0 => 0
  | n + 1 => processLP x (constIter g x n) g

end Naive

namespace TPT

/-- Filter.h `TPT::processLP`: `v = (x - z1) * G; y = v + z1; z1 = v + y`.
Returns `(output, new z1)`. -/
def processLP (x z1 G : K) : K × K :=
  let v := (x - z1) * G
  let y := v + z1
  (y, v + y)

/-- Iterates `TPT::processLP` over an input list from integrator state `z1`,
collecting the outputs. -/
def runLP (G : K) (z1 : K) : List K → List K
  | [] => []
  | x :: xs =>
    let p := processLP x z1 G
    p.1 :: runLP G p.2 xs

end TPT

/-- Modelled from the spec wording of claim C4: the one-pole recurrence
`y[n] = y[n-1] + g * (x[n] - y[n-1])` run over an input list from state
`y`, collecting the outputs.  This is the specification-side sequence the
two realizations are claimed to produce. -/
def specOnePoleRun (g : K) (y : K) : List K → List K
  | [] => []
  | x :: xs =>
    let y2 := y + g * (x - y)
    y2 :: specOnePoleRun g y2 xs

/-- Specification-side characterization of the TPT one-pole: the internal
state follows the recurrence `z[n] = z[n-1] + 2G * (x[n] - z[n-1])` and the
output is the midpoint `(z[n-1] + z[n]) / 2` of consecutive states.  Used
by the amended form of claim C4. -/
def tptMidpointRun (G : K) (z : K) : List K → List K
  | [] => []
  | x :: xs =>
    let z2 := z + 2 * G * (x - z)
    (z + z2) / 2 :: tptMidpointRun G z2 xs

namespace Biquad

/-- Filter.h `DigitalBiquadCoefficients`: six scalar z-domain coefficients
(the C++ member initializers give the identity filter `b0 = a0 = 1`, rest 0). -/
structure DigitalBiquadCoefficients (K : Type*) where
  b0 : K
  b1 : K
  b2 : K
  a0 : K
  a1 : K
  a2 : K

/-- Filter.h `AnalogBiquadCoefficients`: same shape, s-domain semantics. -/
structure AnalogBiquadCoefficients (K : Type*) where
  b0 : K
  b1 : K
  b2 : K
  a0 : K
  a1 : K
  a2 : K

/-- Filter.h `Biquad::bilinear`: converts analog biquad coefficients to
digital ones.  `k = sr * 2; k2 = k * k`; the six divisions all use the
expanded zeroth denominator coefficient `a0 = in.a0 + in.a1*k + in.a2*k2`,
and the returned `a0` is the literal `1.0`. -/
def bilinear (inp : AnalogBiquadCoefficients K) (sr : K) : DigitalBiquadCoefficients K :=
  let k := sr * 2
  let k2 := k * k
  let a0 := inp.a0 + inp.a1 * k + inp.a2 * k2
  { b0 := (inp.b0 + inp.b1 * k + inp.b2 * k2) / a0
    b1 := (inp.b0 * 2 - inp.b2 * 2 * k2) / a0
    b2 := (inp.b0 - inp.b1 * k + inp.b2 * k2) / a0
    a0 := 1
    a1 := (inp.a0 * 2 - inp.a2 * 2 * k2) / a0
    a2 := (inp.a0 - inp.a1 * k + inp.a2 * k2) / a0 }

/-- The single divisor used by all six divisions inside `Biquad::bilinear`:
the expanded zeroth denominator coefficient `in.a0 + in.a1*k + in.a2*k2`. -/
def bilinearDivisor (inp : AnalogBiquadCoefficients K) (sr : K) : K :=
  inp.a0 + inp.a1 * (sr * 2) + inp.a2 * (sr * 2 * (sr * 2))

/-- Division-by-zero aware wrapper of `Biquad::bilinear`: returns `none`
exactly when the transform would divide by zero (all six divisions share
the divisor `bilinearDivisor`). -/
def bilinearChecked (inp : AnalogBiquadCoefficients K) (sr : K) :
    Option (DigitalBiquadCoefficients K) :=
  if bilinearDivisor inp sr = 0 then none else some (bilinear inp sr)

/-- State of the `DirectForm1` topology: two input delays, two output
delays, plus the most recent output `y` (the member used by `last()`). -/
structure DF1State (K : Type*) where
  y : K
  x1 : K
  x2 : K
  y1 : K
  y2 : K

/-- Filter.h `Biquad::reset` for `DirectForm1`: all state zeroed. -/
def df1Reset : DF1State K := ⟨0, 0, 0, 0, 0⟩

/-- Filter.h `Biquad::process`, `DirectForm1` branch:
`y = b0*x + b1*x1 + b2*x2 - a1*y1 - a2*y2; x2 = x1; x1 = x; y2 = y1; y1 = y`. -/
def df1Process (c : DigitalBiquadCoefficients K) (s : DF1State K) (x : K) : DF1State K :=
  let y := c.b0 * x + c.b1 * s.x1 + c.b2 * s.x2 - c.a1 * s.y1 - c.a2 * s.y2
  ⟨y, x, s.x1, y, s.y1⟩

/-- Output sequence of the `DirectForm1` biquad over an input list. -/
def df1Run (c : DigitalBiquadCoefficients K) (s : DF1State K) : List K → List K
  | [] => []
  | x :: xs =>
    let s2 := df1Process c s x
    s2.y :: df1Run c s2 xs

/-- State of the `DirectForm2` topology: two shared delays `v1 v2` plus the
most recent output `y`. -/
structure DF2State (K : Type*) where
  y : K
  v1 : K
  v2 : K

/-- Filter.h `Biquad::reset` for `DirectForm2`: all state zeroed. -/
def df2Reset : DF2State K := ⟨0, 0, 0⟩

/-- Filter.h `Biquad::process`, `DirectForm2` branch:
`w = x - a1*v1 - a2*v2; y = b0*w + b1*v1 + b2*v2; v2 = v1; v1 = w`. -/
def df2Process (c : DigitalBiquadCoefficients K) (s : DF2State K) (x : K) : DF2State K :=
  let w := x - c.a1 * s.v1 - c.a2 * s.v2
  let y := c.b0 * w + c.b1 * s.v1 + c.b2 * s.v2
  ⟨y, w, s.v1⟩

/-- Output sequence of the `DirectForm2` biquad over an input list. -/
def df2Run (c : DigitalBiquadCoefficients K) (s : DF2State K) : List K → List K
  | [] => []
  | x :: xs =>
    let s2 := df2Process c s x
    s2.y :: df2Run c s2 xs

/-- State of the `TransposedDirectForm1` topology: four accumulators
`s0 s1 s2 s3` plus the most recent output `y`. -/
structure TDF1State (K : Type*) where
  y : K
  s0 : K
  s1 : K
  s2 : K
  s3 : K

/-- Filter.h `Biquad::reset` for `TransposedDirectForm1`: all state zeroed. -/
def tdf1Reset : TDF1State K := ⟨0, 0, 0, 0, 0⟩

/-- Filter.h `Biquad::process`, `TransposedDirectForm1` branch:
`y = s0 + s2 + b0*x; s0 = s1 + b1*x; s1 = b2*x; s2 = s3 - a1*y; s3 = -a2*y`. -/
def tdf1Process (c : DigitalBiquadCoefficients K) (s : TDF1State K) (x : K) : TDF1State K :=
  let y := s.s0 + s.s2 + c.b0 * x
  ⟨y, s.s1 + c.b1 * x, c.b2 * x, s.s3 - c.a1 * y, -(c.a2 * y)⟩

/-- Output sequence of the `TransposedDirectForm1` biquad over an input list. -/
def tdf1Run (c : DigitalBiquadCoefficients K) (s : TDF1State K) : List K → List K
  | [] => []
  | x :: xs =>
    let s2 := tdf1Process c s x
    s2.y :: tdf1Run c s2 xs

/-- State of the `TransposedDirectForm2` topology: two accumulators `v1 v2`
plus the most recent output `y`. -/
structure TDF2State (K : Type*) where
  y : K
  v1 : K
  v2 : K

/-- Filter.h `Biquad::reset` for `TransposedDirectForm2`: all state zeroed. -/
def tdf2Reset : TDF2State K := ⟨0, 0, 0⟩

/-- Filter.h `Biquad::process`, `TransposedDirectForm2` branch:
`y = b0*x + v1; v1 = b1*x - a1*y + v2; v2 = b2*x - a2*y`. -/
def tdf2Process (c : DigitalBiquadCoefficients K) (s : TDF2State K) (x : K) : TDF2State K :=
  let y := c.b0 * x + s.v1
  ⟨y, c.b1 * x - c.a1 * y + s.v2, c.b2 * x - c.a2 * y⟩

/-- Output sequence of the `TransposedDirectForm2` biquad over an input list. -/
def tdf2Run (c : DigitalBiquadCoefficients K) (s : TDF2State K) : List K → List K
  | [] => []
  | x :: xs =>
    let s2 := tdf2Process c s x
    s2.y :: tdf2Run c s2 xs

/-- The `TransposedDirectForm2` state simulated by a given `DirectForm1`
state: `v1` holds the pending partial sum `b1*x1 + b2*x2 - a1*y1 - a2*y2`
and `v2` holds `b2*x1 - a2*y1`. -/
def tdf2OfDf1 (c : DigitalBiquadCoefficients K) (s : DF1State K) : TDF2State K :=
  ⟨s.y, c.b1 * s.x1 + c.b2 * s.x2 - c.a1 * s.y1 - c.a2 * s.y2,
    c.b2 * s.x1 - c.a2 * s.y1⟩

/-- The `TransposedDirectForm1` state simulated by a given `DirectForm1`
state: the feed-forward accumulators `s0 s1` hold `b1*x1 + b2*x2` and
`b2*x1`, the feedback accumulators `s2 s3` hold `-a1*y1 - a2*y2` and
`-a2*y1`. -/
def tdf1OfDf1 (c : DigitalBiquadCoefficients K) (s : DF1State K) : TDF1State K :=
  ⟨s.y, c.b1 * s.x1 + c.b2 * s.x2, c.b2 * s.x1,
    -(c.a1 * s.y1) - c.a2 * s.y2, -(c.a2 * s.y1)⟩

/-- Simulation relation between a `DirectForm1` state and a `DirectForm2`
state: outputs agree, and the two linear combinations of the `DirectForm1`
delays that determine the next two outputs agree with the corresponding
combinations of the shared delays `v1 v2`. -/
def df2Rel (c : DigitalBiquadCoefficients K) (s : DF1State K) (t : DF2State K) : Prop :=
  s.y = t.y ∧
  c.b1 * s.x1 + c.b2 * s.x2 - c.a1 * s.y1 - c.a2 * s.y2
    = (c.b1 - c.b0 * c.a1) * t.v1 + (c.b2 - c.b0 * c.a2) * t.v2 ∧
  c.b2 * s.x1 - c.a2 * s.y1
    = (c.b2 - c.b0 * c.a2) * t.v1 + (c.a1 * c.b2 - c.a2 * c.b1) * t.v2

end Biquad

namespace TPT

/-- Filter.h `TPT::StateVariableFilter` data members: TPT parameters
`G R g1 d`, integrator states `s1 s2`, the three outputs, and the stored
human-unit parameters. -/
structure StateVariableFilter (K : Type*) where
  G : K
  R : K
  g1 : K
  d : K
  s1 : K
  s2 : K
  hp : K
  bp : K
  lp : K
  frequency : K
  resonance : K

/-- Filter.h `StateVariableFilter::updateCoefficients`:
`g1 = 2*R + G; d = 1/(1 + g1*G)`. -/
def updateCoefficients (f : StateVariableFilter K) : StateVariableFilter K :=
  let g1 := 2 * f.R + f.G
  { f with g1 := g1, d := 1 / (1 + g1 * f.G) }

/-- Filter.h `StateVariableFilter::setResonance`:
`resonance = clamp(r, 0, 1); R = lerp(1.0, 0.1, resonance);
updateCoefficients()`.  The source constant `max_resonance = 0.1` is the
exact rational 1/10 in this model. -/
def setResonance (f : StateVariableFilter K) (r : K) : StateVariableFilter K :=
  let res := Math.clamp r 0 1
  updateCoefficients { f with resonance := res, R := Math.lerp 1 (1/10) res }

end TPT

namespace Fir

/-- FIR.h `Fir::Filter` data members: the tap coefficients, the history
buffer (sized at twice the tap count), and the ring index
`circularBufferState` (an `int` that stays in `[0, tapCount)`; modelled
as a natural number). -/
structure Filter (K : Type*) where
  coefficients : List K
  buffer : List K
  circularBufferState : ℕ

/-- A default-constructed `Fir::Filter`: empty vectors, ring index 0. -/
def init : Filter K := ⟨[], [], 0⟩

/-- Value-level semantics of `std::vector::resize(m)`: keep the first `m`
elements, pad with value-initialized (zero) elements. -/
def listResize (l : List K) (m : ℕ) : List K :=
  l.take m ++ List.replicate (m - l.length) 0

/-- FIR.h `Fir::Filter::reset`: fills the history buffer with zeros (the
ring index and coefficients are left unchanged). -/
def reset (f : Filter K) : Filter K :=
  { f with buffer := List.replicate f.buffer.length 0 }

/-- FIR.h `Fir::Filter::setCoefficients`: stores the new coefficients,
resizes the history buffer to twice the tap count, and calls `reset` (the
ring index is left unchanged). -/
def setCoefficients (f : Filter K) (newCoefficients : List K) : Filter K :=
  reset { f with coefficients := newCoefficients,
                 buffer := listResize f.buffer (newCoefficients.length * 2) }

/-- FIR.h `Fir::Filter::process`: with `n` the tap count, writes `x` at
buffer offsets `circularBufferState + n` (`bufferData[0]`) and
`circularBufferState` (`bufferData[-n]`), accumulates
`Σ coefficients[i] * buffer[circularBufferState + n - i]` for `i` in
`[0, n)`, advances the ring index to `(circularBufferState + 1) % n`, and
returns the sum.  Out-of-range list reads (impossible for a well-formed
filter) default to 0. -/
def process (f : Filter K) (x : K) : K × Filter K :=
  let n := f.coefficients.length
  let buf := (f.buffer.set (f.circularBufferState + n) x).set f.circularBufferState x
  let sum := ∑ i ∈ Finset.range n,
    f.coefficients.getD i 0 * buf.getD (f.circularBufferState + n - i) 0
  (sum, { f with buffer := buf, circularBufferState := (f.circularBufferState + 1) % n })

/-- Output sequence of a FIR filter over an input list. -/
def run (f : Filter K) : List K → List K
  | [] => []
  | x :: xs => (process f x).1 :: run (process f x).2 xs

/-- One externally visible operation on a configured FIR filter. -/
inductive Op (K : Type*) where
  | reset : Op K
  | process (x : K) : Op K

/-- Applies one operation to a FIR filter, discarding any output. -/
def applyOp (f : Filter K) : Op K → Filter K
  | .reset => reset f
  | .process x => (process f x).2

/-- Applies a sequence of operations to a FIR filter. -/
def applyOps (f : Filter K) (ops : List (Op K)) : Filter K :=
  ops.foldl applyOp f

/-- The mirrored-ring invariant of the FIR history buffer: the buffer has
length twice the tap count and the two halves are equal copy for copy. -/
def Mirrored (f : Filter K) : Prop :=
  f.buffer.length = 2 * f.coefficients.length ∧
  ∀ p < f.coefficients.length,
    f.buffer.getD p 0 = f.buffer.getD (p + f.coefficients.length) 0

/-- Well-formedness of a FIR filter: mirrored buffer and in-range ring
index. -/
def WF (f : Filter K) : Prop :=
  Mirrored f ∧ f.circularBufferState < f.coefficients.length

/-- FIR.h `WindowedSincLowpass` tap count: `N = size_t(sr * duration)`,
decremented when even to force an odd kernel length.  (For `sr*duration`
below 1 the C++ `size_t` decrement would underflow; the claims only
concern `N ≥ 1`.) -/
noncomputable def wslTapCount (duration sr : ℝ) : ℕ :=
  let N0 := ⌊sr * duration⌋₊
  if N0 % 2 = 0 then N0 - 1 else N0

/-- FIR.h `WindowedSincLowpass` pre-normalization kernel: for each `n < N`
(`M = N - 1`, `wc = (cutoff/sr)*π*2`), the sinc value
`sin(x)/x` at `x = (n - M*0.5)*wc` with the `x = 0` sample special-cased
to 1, multiplied by the four-term Blackman-Nuttall window
`a0 - a1*cos(wx2) + a2*cos(2*wx2) - a3*cos(3*wx2)` at `wx2 = (n/M)*2*π`. -/
noncomputable def wslKernel (cutoff duration sr : ℝ) : List ℝ :=
  let N := wslTapCount duration sr
  let M := N - 1
  let wc := cutoff / sr * Real.pi * 2
  (List.range N).map (fun n =>
    let x := ((n : ℝ) - (M : ℝ) * (1/2)) * wc
    let sinc := if x = 0 then 1 else Real.sin x / x
    let nm := (n : ℝ) / (M : ℝ)
    let wx2 := nm * 2 * Real.pi
    let window := 0.3635819 - 0.4891775 * Real.cos wx2
      + 0.1365995 * Real.cos (wx2 * 2) - 0.0106411 * Real.cos (wx2 * 3)
    window * sinc)

/-- FIR.h `WindowedSincLowpass`: the windowed-sinc kernel with every
coefficient divided by the kernel sum (`c /= sum`). -/
noncomputable def WindowedSincLowpass (cutoff duration sr : ℝ) : List ℝ :=
  let pre := wslKernel cutoff duration sr
  pre.map (fun c => c / pre.sum)

/-- The j-th most recent element of `past` (0 when `past` has fewer than
`j + 1` elements): the spec-side notion of "the i-th most recent input
sample" of claim C2. -/
def recentInput (past : List K) (j : ℕ) : K :=
  if j < past.length then past.getD (past.length - 1 - j) 0 else 0

/-- Modelled from the spec wording of claim C2: the direct convolution
output sequence, whose m-th element is
`Σ coefficients[i] * (i-th most recent input)` with samples before the
first call equal to zero.  `past` carries the inputs already consumed. -/
def convOutputs (c past : List K) : List K → List K
  | [] => []
  | x :: xs =>
    (∑ i ∈ Finset.range c.length, c.getD i 0 * recentInput (past ++ [x]) i)
      :: convOutputs c (past ++ [x]) xs

/-- Run-time invariant tying a FIR filter to the list `past` of inputs
processed since the buffer was last zeroed, with `o` the ring index at that
moment: coefficients are `c`, the buffer is mirrored with length `2n`, the
ring index equals `(o + past.length) % n`, and ring slot
`(o + past.length + (n-1-j)) % n` holds the j-th most recent input. -/
def HistoryInv (c : List K) (o : ℕ) (past : List K) (f : Filter K) : Prop :=
  f.coefficients = c ∧
  f.buffer.length = 2 * c.length ∧
  (∀ p < c.length, f.buffer.getD p 0 = f.buffer.getD (p + c.length) 0) ∧
  f.circularBufferState = (o + past.length) % c.length ∧
  ∀ j < c.length,
    f.buffer.getD ((o + past.length + (c.length - 1 - j)) % c.length) 0
      = recentInput past j

end Fir

end Filter

namespace Filter.Biquad

lemma tdf2OfDf1_reset (c : DigitalBiquadCoefficients K) :
    tdf2OfDf1 c df1Reset = tdf2Reset := by
  simp [tdf2OfDf1, df1Reset, tdf2Reset]

lemma tdf2OfDf1_step (c : DigitalBiquadCoefficients K) (s : DF1State K) (x : K) :
    tdf2Process c (tdf2OfDf1 c s) x = tdf2OfDf1 c (df1Process c s x) := by
  simp only [tdf2Process, tdf2OfDf1, df1Process, TDF2State.mk.injEq]
  refine ⟨by ring, by ring, by ring⟩

lemma tdf2Run_eq_df1Run (c : DigitalBiquadCoefficients K) (s : DF1State K)
    (xs : List K) : tdf2Run c (tdf2OfDf1 c s) xs = df1Run c s xs := by
  induction xs generalizing s with
  | nil => rfl
  | cons x xs ih =>
    simp only [tdf2Run, df1Run, tdf2OfDf1_step]
    exact congrArg _ (ih _)

lemma tdf1OfDf1_reset (c : DigitalBiquadCoefficients K) :
    tdf1OfDf1 c df1Reset = tdf1Reset := by
  simp [tdf1OfDf1, df1Reset, tdf1Reset]

lemma tdf1OfDf1_step (c : DigitalBiquadCoefficients K) (s : DF1State K) (x : K) :
    tdf1Process c (tdf1OfDf1 c s) x = tdf1OfDf1 c (df1Process c s x) := by
  simp only [tdf1Process, tdf1OfDf1, df1Process, TDF1State.mk.injEq]
  refine ⟨by ring, by ring, by ring_nf, by ring, by ring⟩

lemma tdf1Run_eq_df1Run (c : DigitalBiquadCoefficients K) (s : DF1State K)
    (xs : List K) : tdf1Run c (tdf1OfDf1 c s) xs = df1Run c s xs := by
  induction xs generalizing s with
  | nil => rfl
  | cons x xs ih =>
    simp only [tdf1Run, df1Run, tdf1OfDf1_step]
    exact congrArg _ (ih _)

lemma df2Rel_reset (c : DigitalBiquadCoefficients K) :
    df2Rel c df1Reset df2Reset := by
  refine ⟨rfl, ?_, ?_⟩ <;> simp [df1Reset, df2Reset]

lemma df2Rel_step (c : DigitalBiquadCoefficients K) (s : DF1State K)
    (t : DF2State K) (x : K) (h : df2Rel c s t) :
    df2Rel c (df1Process c s x) (df2Process c t x) := by
  obtain ⟨hy, h1, h2⟩ := h
  refine ⟨?_, ?_, ?_⟩ <;> simp only [df1Process, df2Process]
  · linear_combination h1
  · linear_combination (-c.a1) * h1 + h2
  · linear_combination (-c.a2) * h1

lemma df2Run_eq_df1Run (c : DigitalBiquadCoefficients K) :
    ∀ (xs : List K) (s : DF1State K) (t : DF2State K), df2Rel c s t →
      df2Run c t xs = df1Run c s xs := by
  intro xs
  induction xs with
  | nil => intro s t _; rfl
  | cons x xs ih =>
    intro s t h
    have hstep := df2Rel_step c s t x h
    simp only [df2Run, df1Run]
    exact congrArg₂ List.cons hstep.1.symm (ih _ _ hstep)

end Filter.Biquad

namespace Filter.Fir

lemma getD_set_self (l : List K) (i : ℕ) (a : K) (h : i < l.length) :
    (l.set i a).getD i 0 = a := by
  simp [List.getD, List.getElem?_set_self', List.getElem?_eq_getElem h]

lemma getD_set_ne (l : List K) (i j : ℕ) (a : K) (h : i ≠ j) :
    (l.set i a).getD j 0 = l.getD j 0 := by
  simp [List.getD, List.getElem?_set_ne h]

lemma add_mod_ne_mod (m d n : ℕ) (h1 : 0 < d) (h2 : d < n) :
    (m + d) % n ≠ m % n := by
  have hn : 0 < n := lt_trans h1 h2
  intro h
  have ha : m % n < n := Nat.mod_lt _ hn
  rw [Nat.add_mod, Nat.mod_eq_of_lt h2] at h
  rcases Nat.lt_or_ge (m % n + d) n with hlt | hge
  · rw [Nat.mod_eq_of_lt hlt] at h
    omega
  · have hsub : (m % n + d) % n = m % n + d - n := by
      rw [Nat.mod_eq_sub_mod hge, Nat.mod_eq_of_lt (by omega)]
    rw [hsub] at h
    omega

lemma ring_read_eq (m n i : ℕ) (hi : i < n) :
    (m % n + n - i) % n = (m + 1 + (n - 1 - i)) % n := by
  have h1 : m % n + n - i = m % n + (n - i) := by omega
  have h2 : m + 1 + (n - 1 - i) = m + (n - i) := by omega
  rw [h1, h2, Nat.mod_add_mod]

lemma mirror_getD (buf : List K) (n : ℕ) (hlen : buf.length = 2 * n)
    (hm : ∀ p < n, buf.getD p 0 = buf.getD (p + n) 0) (q : ℕ)
    (hq : q < 2 * n) : buf.getD q 0 = buf.getD (q % n) 0 := by
  rcases Nat.lt_or_ge q n with h | h
  · rw [Nat.mod_eq_of_lt h]
  · have hn : 0 < n := by omega
    have hq2 : q - n < n := by omega
    have hmod : q % n = q - n := by
      rw [Nat.mod_eq_sub_mod h, Nat.mod_eq_of_lt hq2]
    rw [hmod, hm (q - n) hq2]
    congr 1
    omega

lemma reset_coefficients (f : Filter K) : (reset f).coefficients = f.coefficients := rfl

lemma reset_state (f : Filter K) :
    (reset f).circularBufferState = f.circularBufferState := rfl

lemma reset_buffer (f : Filter K) :
    (reset f).buffer = List.replicate f.buffer.length 0 := rfl

lemma setCoefficients_fields (f : Filter K) (c : List K) :
    (setCoefficients f c).coefficients = c ∧
      (setCoefficients f c).buffer = List.replicate (2 * c.length) 0 ∧
      (setCoefficients f c).circularBufferState = f.circularBufferState := by
  refine ⟨rfl, ?_, rfl⟩
  show List.replicate (listResize f.buffer (c.length * 2)).length (0:K)
      = List.replicate (2 * c.length) 0
  have hlen : (listResize f.buffer (c.length * 2)).length = 2 * c.length := by
    simp [listResize]
    omega
  rw [hlen]

lemma process_fields (f : Filter K) (x : K) :
    (process f x).2.coefficients = f.coefficients ∧
      (process f x).2.buffer
        = (f.buffer.set (f.circularBufferState + f.coefficients.length) x).set
            f.circularBufferState x ∧
      (process f x).2.circularBufferState
        = (f.circularBufferState + 1) % f.coefficients.length ∧
      (process f x).1 = ∑ i ∈ Finset.range f.coefficients.length,
        f.coefficients.getD i 0
          * ((f.buffer.set (f.circularBufferState + f.coefficients.length) x).set
              f.circularBufferState x).getD
              (f.circularBufferState + f.coefficients.length - i) 0 :=
  ⟨rfl, rfl, rfl, rfl⟩

lemma mirrored_reset (f : Filter K)
    (h : f.buffer.length = 2 * f.coefficients.length) : Mirrored (reset f) := by
  constructor
  · simp [reset, h]
  · intro p hp
    simp [reset, List.getD]

lemma mirrored_setCoefficients (f : Filter K) (c : List K) :
    Mirrored (setCoefficients f c) := by
  have hf := setCoefficients_fields f c
  constructor
  · rw [hf.1, hf.2.1]
    simp
  · intro p hp
    rw [hf.2.1]
    simp [List.getD]

lemma mirrored_process (f : Filter K) (x : K) (h : WF f) :
    Mirrored (process f x).2 := by
  obtain ⟨⟨hlen, hmir⟩, hs⟩ := h
  have hn : 0 < f.coefficients.length := lt_of_le_of_lt (Nat.zero_le _) hs
  have hp := process_fields f x
  have hlen2 : ((f.buffer.set (f.circularBufferState + f.coefficients.length) x).set
      f.circularBufferState x).length = f.buffer.length := by
    simp
  constructor
  · rw [hp.1, hp.2.1, hlen2, hlen]
  · intro p hp2
    rw [hp.1] at hp2
    rw [hp.1, hp.2.1]
    set n := f.coefficients.length with hndef
    set s := f.circularBufferState with hsdef
    rcases eq_or_ne p s with rfl | hne
    · rw [getD_set_self _ s x (by rw [List.length_set, hlen]; omega)]
      rw [getD_set_ne _ _ _ _ (by omega)]
      rw [getD_set_self _ (s + n) x (by rw [hlen]; omega)]
    · rw [getD_set_ne _ _ _ _ (fun hh => hne hh.symm)]
      rw [getD_set_ne _ _ _ _ (by omega)]
      rw [getD_set_ne _ _ _ _ (by omega)]
      rw [getD_set_ne _ _ _ _ (by omega)]
      exact hmir p hp2

lemma wf_process (f : Filter K) (x : K) (h : WF f) : WF (process f x).2 := by
  have hn : 0 < f.coefficients.length := lt_of_le_of_lt (Nat.zero_le _) h.2
  refine ⟨mirrored_process f x h, ?_⟩
  rw [(process_fields f x).1, (process_fields f x).2.2.1]
  exact Nat.mod_lt _ hn

lemma wf_reset (f : Filter K) (h : WF f) : WF (reset f) := by
  refine ⟨mirrored_reset f h.1.1, ?_⟩
  rw [reset_coefficients, reset_state]
  exact h.2

lemma wf_setCoefficients (f : Filter K) (c : List K)
    (hs : f.circularBufferState < c.length) : WF (setCoefficients f c) := by
  refine ⟨mirrored_setCoefficients f c, ?_⟩
  rw [(setCoefficients_fields f c).1, (setCoefficients_fields f c).2.2]
  exact hs

lemma wf_applyOp (f : Filter K) (op : Op K) (h : WF f) : WF (applyOp f op) := by
  cases op with
  | reset => exact wf_reset f h
  | process x => exact wf_process f x h

lemma wf_applyOps (ops : List (Op K)) (f : Filter K) (h : WF f) :
    WF (applyOps f ops) := by
  induction ops generalizing f with
  | nil => exact h
  | cons op ops ih => exact ih (applyOp f op) (wf_applyOp f op h)

lemma recentInput_append_zero (past : List K) (x : K) :
    recentInput (past ++ [x]) 0 = x := by
  rw [recentInput, if_pos (by simp)]
  simp [List.getD]

lemma recentInput_append_succ (past : List K) (x : K) (j : ℕ) :
    recentInput (past ++ [x]) (j + 1) = recentInput past j := by
  rw [recentInput, recentInput]
  simp only [List.length_append, List.length_singleton]
  rcases Nat.lt_or_ge j past.length with h | h
  · rw [if_pos (by omega), if_pos h]
    have hidx : past.length + 1 - 1 - (j + 1) = past.length - 1 - j := by omega
    rw [hidx]
    have hlt : past.length - 1 - j < past.length := by omega
    simp [List.getD, List.getElem?_append, hlt]
  · rw [if_neg (by omega), if_neg (by omega)]

lemma historyInv_zeroed (c : List K) (f : Filter K) (hc : f.coefficients = c)
    (hb : f.buffer = List.replicate (2 * c.length) 0)
    (hs : f.circularBufferState < c.length) :
    HistoryInv c f.circularBufferState [] f := by
  refine ⟨hc, by rw [hb]; simp, ?_, ?_, ?_⟩
  · intro p hp
    rw [hb]
    simp [List.getD]
  · simp [Nat.mod_eq_of_lt hs]
  · intro j hj
    rw [hb]
    simp [List.getD, recentInput]

lemma historyInv_process (c : List K) (hn : 1 ≤ c.length) (o : ℕ)
    (past : List K) (f : Filter K) (h : HistoryInv c o past f) (x : K) :
    HistoryInv c o (past ++ [x]) (process f x).2 ∧
      (process f x).1 = ∑ i ∈ Finset.range c.length,
        c.getD i 0 * recentInput (past ++ [x]) i := by
  obtain ⟨hc, hlen, hmir, hst, hhist⟩ := h
  subst hc
  have hp := process_fields f x
  set n := f.coefficients.length with hndef
  set m := past.length with hmdef
  set s := f.circularBufferState with hsdef
  have hn0 : 0 < n := by omega
  have hs_lt : s < n := by rw [hst]; exact Nat.mod_lt _ hn0
  set buf := (f.buffer.set (s + n) x).set s x with hbufdef
  have hbuf_len : buf.length = 2 * n := by
    rw [hbufdef, List.length_set, List.length_set]
    exact hlen
  have hget_s : buf.getD s 0 = x := by
    rw [hbufdef]
    exact getD_set_self _ s x (by rw [List.length_set, hlen]; omega)
  have hget_sn : buf.getD (s + n) 0 = x := by
    rw [hbufdef, getD_set_ne _ _ _ _ (by omega : s ≠ s + n)]
    exact getD_set_self _ (s + n) x (by rw [hlen]; omega)
  have hget_other : ∀ q, q ≠ s → q ≠ s + n → buf.getD q 0 = f.buffer.getD q 0 := by
    intro q hq1 hq2
    rw [hbufdef, getD_set_ne _ _ _ _ (Ne.symm hq1), getD_set_ne _ _ _ _ (Ne.symm hq2)]
  have hmir2 : ∀ p < n, buf.getD p 0 = buf.getD (p + n) 0 := by
    intro p hp2
    rcases eq_or_ne p s with rfl | hne
    · rw [hget_s, hget_sn]
    · rw [hget_other p hne (by omega), hget_other (p + n) (by omega) (by omega)]
      exact hmir p hp2
  have hstate2 : (process f x).2.circularBufferState = (o + (m + 1)) % n := by
    rw [hp.2.2.1, hst, Nat.mod_add_mod]
    have hassoc : o + m + 1 = o + (m + 1) := by omega
    rw [hassoc]
  have hhist2 : ∀ j < n,
      buf.getD ((o + (m + 1) + (n - 1 - j)) % n) 0 = recentInput (past ++ [x]) j := by
    intro j hj
    rcases Nat.eq_zero_or_pos j with rfl | hjpos
    · have hpos : (o + (m + 1) + (n - 1 - 0)) % n = s := by
        rw [hst]
        have he : o + (m + 1) + (n - 1 - 0) = o + m + n := by omega
        rw [he, Nat.add_mod_right]
      rw [hpos, hget_s, recentInput_append_zero]
    · obtain ⟨jj, rfl⟩ : ∃ jj, j = jj + 1 := ⟨j - 1, by omega⟩
      have hjj : jj < n := by omega
      have hpos : (o + (m + 1) + (n - 1 - (jj + 1))) % n
          = (o + m + (n - 1 - jj)) % n := by
        congr 1
        omega
      have hne_s : (o + m + (n - 1 - jj)) % n ≠ s := by
        rw [hst]
        exact add_mod_ne_mod (o + m) (n - 1 - jj) n (by omega) (by omega)
      have hlt_pos : (o + m + (n - 1 - jj)) % n < n := Nat.mod_lt _ hn0
      rw [hpos, hget_other _ hne_s (by omega), hhist jj hjj,
        recentInput_append_succ]
  have hout : (process f x).1 = ∑ i ∈ Finset.range n,
      f.coefficients.getD i 0 * recentInput (past ++ [x]) i := by
    rw [hp.2.2.2]
    refine Finset.sum_congr rfl ?_
    intro i hi
    rw [Finset.mem_range] at hi
    congr 1
    rw [mirror_getD buf n hbuf_len hmir2 (s + n - i) (by omega)]
    have hre : (s + n - i) % n = (o + (m + 1) + (n - 1 - i)) % n := by
      rw [hst, ring_read_eq (o + m) n i hi]
      have hassoc : o + m + 1 + (n - 1 - i) = o + (m + 1) + (n - 1 - i) := by omega
      rw [hassoc]
    rw [hre]
    exact hhist2 i hi
  refine ⟨⟨hp.1, ?_, ?_, ?_, ?_⟩, hout⟩
  · rw [hp.2.1]
    exact hbuf_len
  · intro p hp3
    rw [hp.2.1]
    exact hmir2 p hp3
  · simp only [List.length_append, List.length_singleton]
    exact hstate2
  · intro j hj
    simp only [List.length_append, List.length_singleton]
    rw [hp.2.1]
    exact hhist2 j hj

lemma run_eq_convOutputs (c : List K) (hn : 1 ≤ c.length) :
    ∀ (xs past : List K) (o : ℕ) (f : Filter K), HistoryInv c o past f →
      run f xs = convOutputs c past xs := by
  intro xs
  induction xs with
  | nil =>
    intro past o f _
    rfl
  | cons x xs ih =>
    intro past o f h
    have hstep := historyInv_process c hn o past f h x
    simp only [run, convOutputs]
    exact congrArg₂ List.cons hstep.2 (ih (past ++ [x]) o (process f x).2 hstep.1)

lemma convOutputs_getD (c : List K) :
    ∀ (xs past : List K) (m : ℕ), m < xs.length →
      (convOutputs c past xs).getD m 0
        = ∑ i ∈ Finset.range c.length,
            c.getD i 0 * recentInput (past ++ xs.take (m + 1)) i := by
  intro xs
  induction xs with
  | nil =>
    intro past m hm
    simp at hm
  | cons x xs ih =>
    intro past m hm
    cases m with
    | zero =>
      simp only [convOutputs, List.getD_cons_zero, List.take_succ_cons,
        List.take_zero]
    | succ m =>
      have hm2 : m < xs.length := by simpa using hm
      have hih := ih (past ++ [x]) m hm2
      simp only [convOutputs, List.getD_cons_succ, List.take_succ_cons]
      rw [hih]
      refine Finset.sum_congr rfl ?_
      intro i _
      congr 1
      rw [List.append_assoc, List.singleton_append]

lemma recentInput_take (xs : List K) (m i : ℕ) (hm : m < xs.length) :
    recentInput (xs.take (m + 1)) i = if i ≤ m then xs.getD (m - i) 0 else 0 := by
  rw [recentInput]
  have hlen : (xs.take (m + 1)).length = m + 1 := by
    rw [List.length_take]
    omega
  rw [hlen]
  rcases Nat.lt_or_ge i (m + 1) with h | h
  · rw [if_pos h, if_pos (by omega)]
    have hidx : m + 1 - 1 - i = m - i := by omega
    rw [hidx]
    have hlt : m - i < m + 1 := by omega
    simp [List.getD, List.getElem?_take, hlt]
  · rw [if_neg (by omega), if_neg (by omega)]

lemma sum_map_div (l : List ℝ) (s : ℝ) :
    (l.map (fun a => a / s)).sum = l.sum / s := by
  induction l with
  | nil => simp
  | cons a t ih => simp [ih, add_div]

end Filter.Fir

lemma clamp_le_right (x a b : K) : Math.clamp x a b ≤ b := by
  simp only [Math.clamp, Math.fmin, Math.fmax]
  split_ifs <;> linarith

lemma left_le_clamp (x a b : K) (hab : a ≤ b) : a ≤ Math.clamp x a b := by
  simp only [Math.clamp, Math.fmin, Math.fmax]
  split_ifs <;> linarith

lemma naive_runLP_eq_spec (g : K) (y : K) (xs : List K) :
    Filter.Naive.runLP g y xs = Filter.specOnePoleRun g y xs := by
  induction xs generalizing y with
  | nil => rfl
  | cons x xs ih =>
    have hy : Filter.Naive.processLP x y g = y + g * (x - y) := by
      simp only [Filter.Naive.processLP]; ring
    simp only [Filter.Naive.runLP, Filter.specOnePoleRun, hy]
    exact congrArg _ (ih _)

lemma tpt_runLP_eq_midpoint (G : K) (z : K) (xs : List K) :
    Filter.TPT.runLP G z xs = Filter.tptMidpointRun G z xs := by
  induction xs generalizing z with
  | nil => rfl
  | cons x xs ih =>
    have h1 : (Filter.TPT.processLP x z G).1 = (z + (z + 2 * G * (x - z))) / 2 := by
      simp only [Filter.TPT.processLP]; ring
    have h2 : (Filter.TPT.processLP x z G).2 = z + 2 * G * (x - z) := by
      simp only [Filter.TPT.processLP]; ring
    simp only [Filter.TPT.runLP, Filter.tptMidpointRun, h1, h2]
    exact congrArg _ (ih _)

lemma naive_constIter_closed (g : ℚ) (n : ℕ) :
    Filter.Naive.constIter g 1 n = 1 - (1 - g) ^ n := by
  induction n with
  | zero => simp [Filter.Naive.constIter]
  | succ n ih =>
    simp only [Filter.Naive.constIter, Filter.Naive.processLP, ih, pow_succ]
    ring

lemma timeToG_scenario_bounds :
    (9967/10000 : ℚ) ≤ 1 - Filter.timeToG (1/100) (1/48000) ∧
      1 - Filter.timeToG (1/100) (1/48000) ≤ 99674/100000 := by
  norm_num [Filter.timeToG, Filter.normFrequencyToG, Math.fpi]

/-- C3: `Biquad::bilinear(in, sr)` returns exactly the digital coefficients
obtained by substituting `s = k*(1-z)/(1+z)` (with `z` denoting the delay
variable `z⁻¹` and `k = 2*sr`) into the analog rational transfer function
and expanding, normalized by `A0 = a0 + a1*k + a2*k²`: the six returned
fields match the claimed closed forms, the returned `a0` equals exactly 1,
and multiplying the analog numerator and denominator at `s` by `(1+z)²`
yields `A0` times the returned digital numerator and denominator
polynomials in `z` (precondition `A0 ≠ 0`; `1 + z ≠ 0` makes the
substitution well defined). -/
theorem bilinear_matches_substitution
    (inp : Filter.Biquad.AnalogBiquadCoefficients K) (sr z : K)
    (hA0 : Filter.Biquad.bilinearDivisor inp sr ≠ 0) (hz : 1 + z ≠ 0) :
    (Filter.Biquad.bilinear inp sr).b0
        = (inp.b0 + inp.b1 * (2 * sr) + inp.b2 * (2 * sr * (2 * sr)))
            / Filter.Biquad.bilinearDivisor inp sr ∧
      (Filter.Biquad.bilinear inp sr).b1
        = (2 * inp.b0 - 2 * inp.b2 * (2 * sr * (2 * sr)))
            / Filter.Biquad.bilinearDivisor inp sr ∧
      (Filter.Biquad.bilinear inp sr).b2
        = (inp.b0 - inp.b1 * (2 * sr) + inp.b2 * (2 * sr * (2 * sr)))
            / Filter.Biquad.bilinearDivisor inp sr ∧
      (Filter.Biquad.bilinear inp sr).a0 = 1 ∧
      (Filter.Biquad.bilinear inp sr).a1
        = (2 * inp.a0 - 2 * inp.a2 * (2 * sr * (2 * sr)))
            / Filter.Biquad.bilinearDivisor inp sr ∧
      (Filter.Biquad.bilinear inp sr).a2
        = (inp.a0 - inp.a1 * (2 * sr) + inp.a2 * (2 * sr * (2 * sr)))
            / Filter.Biquad.bilinearDivisor inp sr ∧
      (inp.b0 + inp.b1 * (2 * sr * (1 - z) / (1 + z))
          + inp.b2 * (2 * sr * (1 - z) / (1 + z)) ^ 2) * (1 + z) ^ 2
        = Filter.Biquad.bilinearDivisor inp sr
            * ((Filter.Biquad.bilinear inp sr).b0
              + (Filter.Biquad.bilinear inp sr).b1 * z
              + (Filter.Biquad.bilinear inp sr).b2 * z ^ 2) ∧
      (inp.a0 + inp.a1 * (2 * sr * (1 - z) / (1 + z))
          + inp.a2 * (2 * sr * (1 - z) / (1 + z)) ^ 2) * (1 + z) ^ 2
        = Filter.Biquad.bilinearDivisor inp sr
            * ((Filter.Biquad.bilinear inp sr).a0
              + (Filter.Biquad.bilinear inp sr).a1 * z
              + (Filter.Biquad.bilinear inp sr).a2 * z ^ 2) := by
  have hA0e : inp.a0 + inp.a1 * (sr * 2) + inp.a2 * (sr * 2 * (sr * 2)) ≠ 0 := hA0
  refine ⟨?_, ?_, ?_, rfl, ?_, ?_, ?_, ?_⟩
  · show (_ / _ : K) = _
    simp only [Filter.Biquad.bilinear, Filter.Biquad.bilinearDivisor]
    rw [div_eq_div_iff hA0e hA0e]; ring
  · show (_ / _ : K) = _
    simp only [Filter.Biquad.bilinear, Filter.Biquad.bilinearDivisor]
    rw [div_eq_div_iff hA0e hA0e]; ring
  · show (_ / _ : K) = _
    simp only [Filter.Biquad.bilinear, Filter.Biquad.bilinearDivisor]
    rw [div_eq_div_iff hA0e hA0e]; ring
  · show (_ / _ : K) = _
    simp only [Filter.Biquad.bilinear, Filter.Biquad.bilinearDivisor]
    rw [div_eq_div_iff hA0e hA0e]; ring
  · show (_ / _ : K) = _
    simp only [Filter.Biquad.bilinear, Filter.Biquad.bilinearDivisor]
    rw [div_eq_div_iff hA0e hA0e]; ring
  · simp only [Filter.Biquad.bilinear, Filter.Biquad.bilinearDivisor]
    field_simp
    ring
  · simp only [Filter.Biquad.bilinear, Filter.Biquad.bilinearDivisor]
    field_simp
    ring

/-- Witness for C3 at a concrete input: the analog prototype
`b = (2, 1, 1), a = (1, 1, 1)` at sample rate 1/2 (`k = 1`, `A0 = 3`) and
query point `z = 1`. -/
theorem bilinear_matches_substitution_witness :
    Filter.Biquad.bilinearDivisor (K := ℚ) ⟨2, 1, 1, 1, 1, 1⟩ (1/2) ≠ 0 ∧
      (1 : ℚ) + 1 ≠ 0 ∧
      (Filter.Biquad.bilinear (K := ℚ) ⟨2, 1, 1, 1, 1, 1⟩ (1/2)).b0 = 4 / 3 := by
  have h1 : Filter.Biquad.bilinearDivisor (K := ℚ) ⟨2, 1, 1, 1, 1, 1⟩ (1/2) ≠ 0 := by
    norm_num [Filter.Biquad.bilinearDivisor]
  have h2 : (1 : ℚ) + 1 ≠ 0 := by norm_num
  have h3 := (bilinear_matches_substitution (K := ℚ) ⟨2, 1, 1, 1, 1, 1⟩ (1/2) 1 h1 h2).1
  refine ⟨h1, h2, ?_⟩
  rw [h3]
  norm_num [Filter.Biquad.bilinearDivisor]

/-- C6 counterexample: the analog prototype `b0 = 1, a0 = 1, a2 = -1` has a
nonzero `a0` field, yet at sample rate 1/2 (`k = 1`) the expanded divisor
`a0 + a1*k + a2*k²` of the bilinear transform is `1 + 0 - 1 = 0`: the
transform divides by zero although the prototype's `a0` is nonzero. -/
theorem bilinear_zero_divisor_despite_nonzero_a0 :
    ((⟨1, 0, 0, 1, 0, -1⟩ : Filter.Biquad.AnalogBiquadCoefficients ℚ).a0 ≠ 0) ∧
      Filter.Biquad.bilinearDivisor (K := ℚ) ⟨1, 0, 0, 1, 0, -1⟩ (1/2) = 0 ∧
      Filter.Biquad.bilinearChecked (K := ℚ) ⟨1, 0, 0, 1, 0, -1⟩ (1/2) = none := by
  have hdiv : Filter.Biquad.bilinearDivisor (K := ℚ) ⟨1, 0, 0, 1, 0, -1⟩ (1/2) = 0 := by
    norm_num [Filter.Biquad.bilinearDivisor]
  refine ⟨by norm_num, hdiv, ?_⟩
  rw [Filter.Biquad.bilinearChecked, if_pos hdiv]

/-- C6 amended: a zero divisor in `Biquad::bilinear` is governed by the
expanded zeroth denominator coefficient `A0 = a0 + a1*k + a2*k²`
(`k = 2*sr`), not by the prototype's `a0` field alone: for every analog
prototype and sample rate with `A0 ≠ 0` the transform performs no division
by zero and produces the `bilinear` result (and, by the counterexample, a
zero divisor can arise even when the prototype's `a0` is nonzero). -/
theorem bilinear_no_div_by_zero_of_divisor_ne
    (inp : Filter.Biquad.AnalogBiquadCoefficients ℚ) (sr : ℚ)
    (h : Filter.Biquad.bilinearDivisor inp sr ≠ 0) :
    Filter.Biquad.bilinearChecked inp sr = some (Filter.Biquad.bilinear inp sr) := by
  rw [Filter.Biquad.bilinearChecked, if_neg h]

/-- Witness for the amended C6 at a concrete input: prototype
`b0 = 1, a0 = 1, a2 = 1` at sample rate 1/2 has divisor `2 ≠ 0` and the
checked transform succeeds. -/
theorem bilinear_no_div_by_zero_witness :
    Filter.Biquad.bilinearChecked (K := ℚ) ⟨1, 0, 0, 1, 0, 1⟩ (1/2)
        = some (Filter.Biquad.bilinear ⟨1, 0, 0, 1, 0, 1⟩ (1/2)) :=
  bilinear_no_div_by_zero_of_divisor_ne ⟨1, 0, 0, 1, 0, 1⟩ (1/2)
    (by norm_num [Filter.Biquad.bilinearDivisor])

/-- C1: for every digital coefficient set and every finite input sequence,
the four Biquad topologies (DirectForm1, DirectForm2, TransposedDirectForm1,
TransposedDirectForm2), each with the same coefficients and started from
reset (all-zero) state, produce sample-for-sample equal output sequences
under exact real arithmetic. -/
theorem biquad_topologies_equivalent
    (c : Filter.Biquad.DigitalBiquadCoefficients ℝ) (xs : List ℝ) :
    Filter.Biquad.df2Run c Filter.Biquad.df2Reset xs
        = Filter.Biquad.df1Run c Filter.Biquad.df1Reset xs ∧
      Filter.Biquad.tdf1Run c Filter.Biquad.tdf1Reset xs
        = Filter.Biquad.df1Run c Filter.Biquad.df1Reset xs ∧
      Filter.Biquad.tdf2Run c Filter.Biquad.tdf2Reset xs
        = Filter.Biquad.df1Run c Filter.Biquad.df1Reset xs := by
  refine ⟨Filter.Biquad.df2Run_eq_df1Run c xs _ _ (Filter.Biquad.df2Rel_reset c), ?_, ?_⟩
  · rw [← Filter.Biquad.tdf1OfDf1_reset c]
    exact Filter.Biquad.tdf1Run_eq_df1Run c _ xs
  · rw [← Filter.Biquad.tdf2OfDf1_reset c]
    exact Filter.Biquad.tdf2Run_eq_df1Run c _ xs

/-- C10: Biquad output is independent of the `a0` coefficient field: for any
two digital coefficient sets that differ only in `a0`, any identical internal
state, and any identical input, `Biquad::process` produces identical outputs
and identical post-states in all four topologies (the implementation never
reads `coeffs.a0`). -/
theorem biquad_process_ignores_a0
    (c c2 : Filter.Biquad.DigitalBiquadCoefficients ℚ)
    (hb0 : c.b0 = c2.b0) (hb1 : c.b1 = c2.b1) (hb2 : c.b2 = c2.b2)
    (ha1 : c.a1 = c2.a1) (ha2 : c.a2 = c2.a2)
    (s1 : Filter.Biquad.DF1State ℚ) (s2 : Filter.Biquad.DF2State ℚ)
    (s3 : Filter.Biquad.TDF1State ℚ) (s4 : Filter.Biquad.TDF2State ℚ) (x : ℚ) :
    Filter.Biquad.df1Process c s1 x = Filter.Biquad.df1Process c2 s1 x ∧
      Filter.Biquad.df2Process c s2 x = Filter.Biquad.df2Process c2 s2 x ∧
      Filter.Biquad.tdf1Process c s3 x = Filter.Biquad.tdf1Process c2 s3 x ∧
      Filter.Biquad.tdf2Process c s4 x = Filter.Biquad.tdf2Process c2 s4 x := by
  simp [Filter.Biquad.df1Process, Filter.Biquad.df2Process,
    Filter.Biquad.tdf1Process, Filter.Biquad.tdf2Process, hb0, hb1, hb2, ha1, ha2]

/-- Witness for C10 at concrete inputs: the two coefficient sets differ only
in `a0` (5 versus 9); outputs and post-states agree in all four topologies. -/
theorem biquad_process_ignores_a0_witness :
    Filter.Biquad.df1Process (K := ℚ) ⟨1, 2, 3, 5, 4, 6⟩ ⟨0, 1, 2, 3, 4⟩ 7
        = Filter.Biquad.df1Process ⟨1, 2, 3, 9, 4, 6⟩ ⟨0, 1, 2, 3, 4⟩ 7 ∧
      Filter.Biquad.df2Process (K := ℚ) ⟨1, 2, 3, 5, 4, 6⟩ ⟨0, 1, 2⟩ 7
        = Filter.Biquad.df2Process ⟨1, 2, 3, 9, 4, 6⟩ ⟨0, 1, 2⟩ 7 ∧
      Filter.Biquad.tdf1Process (K := ℚ) ⟨1, 2, 3, 5, 4, 6⟩ ⟨0, 1, 2, 3, 4⟩ 7
        = Filter.Biquad.tdf1Process ⟨1, 2, 3, 9, 4, 6⟩ ⟨0, 1, 2, 3, 4⟩ 7 ∧
      Filter.Biquad.tdf2Process (K := ℚ) ⟨1, 2, 3, 5, 4, 6⟩ ⟨0, 1, 2⟩ 7
        = Filter.Biquad.tdf2Process ⟨1, 2, 3, 9, 4, 6⟩ ⟨0, 1, 2⟩ 7 :=
  biquad_process_ignores_a0 ⟨1, 2, 3, 5, 4, 6⟩ ⟨1, 2, 3, 9, 4, 6⟩
    rfl rfl rfl rfl rfl ⟨0, 1, 2, 3, 4⟩ ⟨0, 1, 2⟩ ⟨0, 1, 2, 3, 4⟩ ⟨0, 1, 2⟩ 7

/-- C7: for every real argument `r`, `StateVariableFilter::setResonance(r)`
never rejects its input: it stores `clamp(r, 0, 1)` and sets the internal
damping to `R = lerp(1.0, 0.1, clamp(r, 0, 1))`, so `R` always lies in
`[0.1, 1.0]`, with `r = 0` mapping to `R = 1.0` and `r = 1` to `R = 0.1`
(linear in between). -/
theorem svf_setResonance_total_clamped
    (f : Filter.TPT.StateVariableFilter ℝ) (r : ℝ) :
    (Filter.TPT.setResonance f r).resonance = Math.clamp r 0 1 ∧
      (Filter.TPT.setResonance f r).R = Math.lerp 1 (1/10) (Math.clamp r 0 1) ∧
      1/10 ≤ (Filter.TPT.setResonance f r).R ∧
      (Filter.TPT.setResonance f r).R ≤ 1 ∧
      (Filter.TPT.setResonance f 0).R = 1 ∧
      (Filter.TPT.setResonance f 1).R = 1/10 := by
  have h0 : (0:ℝ) ≤ Math.clamp r 0 1 := left_le_clamp r 0 1 (by norm_num)
  have h1 : Math.clamp r 0 1 ≤ 1 := clamp_le_right r 0 1
  refine ⟨rfl, rfl, ?_, ?_, ?_, ?_⟩
  · show 1/10 ≤ Math.lerp 1 (1/10) (Math.clamp r 0 1)
    simp only [Math.lerp]
    linarith
  · show Math.lerp 1 (1/10) (Math.clamp r 0 1) ≤ 1
    simp only [Math.lerp]
    linarith
  · show Math.lerp 1 (1/10) (Math.clamp (0:ℝ) 0 1) = 1
    norm_num [Math.clamp, Math.fmin, Math.fmax, Math.lerp]
  · show Math.lerp 1 (1/10) (Math.clamp (1:ℝ) 0 1) = 1/10
    norm_num [Math.clamp, Math.fmin, Math.fmax, Math.lerp]

/-- C4 counterexample: with the same coefficient `g = G = 1/2` (inside
`(0,1)`) and the input sequence `[1, 1]` from zero state, the naive one-pole
outputs `[1/2, 3/4]` while the TPT one-pole outputs `[1/2, 1]`: the two
realizations are not sample-for-sample equal. -/
theorem naive_tpt_onepole_not_equal :
    (0:ℚ) < 1/2 ∧ (1/2:ℚ) < 1 ∧
      Filter.Naive.runLP (1/2 : ℚ) 0 [1, 1] = [1/2, 3/4] ∧
      Filter.TPT.runLP (1/2 : ℚ) 0 [1, 1] = [1/2, 1] ∧
      Filter.Naive.runLP (1/2 : ℚ) 0 [1, 1] ≠ Filter.TPT.runLP (1/2 : ℚ) 0 [1, 1] := by
  have hN : Filter.Naive.runLP (1/2 : ℚ) 0 [1, 1] = [1/2, 3/4] := by
    norm_num [Filter.Naive.runLP, Filter.Naive.processLP]
  have hT : Filter.TPT.runLP (1/2 : ℚ) 0 [1, 1] = [1/2, 1] := by
    norm_num [Filter.TPT.runLP, Filter.TPT.processLP]
  refine ⟨by norm_num, by norm_num, hN, hT, ?_⟩
  rw [hN, hT]
  norm_num

/-- C4 amended: the naive one-pole realizes the recurrence
`y[n] = y[n-1] + g*(x[n] - y[n-1])`; the TPT one-pole with coefficient `G`
instead realizes the trapezoidal form in which the integrator state follows
`z[n] = z[n-1] + 2G*(x[n] - z[n-1])` and the output is the midpoint
`(z[n-1] + z[n])/2`; the two realizations are not equal sample-for-sample in
general. -/
theorem onepole_realizations_characterized (g G y z : ℝ) (xs : List ℝ) :
    Filter.Naive.runLP g y xs = Filter.specOnePoleRun g y xs ∧
      Filter.TPT.runLP G z xs = Filter.tptMidpointRun G z xs :=
  ⟨naive_runLP_eq_spec g y xs, tpt_runLP_eq_midpoint G z xs⟩

set_option maxHeartbeats 1000000 in
/-- C5 counterexample: with `g = timeToG(0.01, 1/48000)`, iterating the
naive one-pole low-pass 480 times with constant input 1.0 from state 0 does
NOT land within 1e-3 of 1.0 (the final value is about 0.7915, roughly 0.21
away from 1.0). -/
theorem timeToG_scenario_not_within_1e3 :
    ¬ |Filter.Naive.constIter (Filter.timeToG (1/100) (1/48000)) 1 480 - 1|
        ≤ 1/1000 := by
  have hb := timeToG_scenario_bounds
  rw [naive_constIter_closed (Filter.timeToG (1/100) (1/48000)) 480]
  generalize hcdef : (1:ℚ) - Filter.timeToG (1/100) (1/48000) = c
  rw [hcdef] at hb
  have h0 : (0:ℚ) ≤ c := le_trans (by norm_num) hb.1
  have habs : |1 - c ^ 480 - 1| = c ^ 480 := by
    have h1 : (1:ℚ) - c ^ 480 - 1 = -(c ^ 480) := by ring
    rw [h1, abs_neg, abs_of_nonneg (pow_nonneg h0 _)]
  rw [habs]
  have hpow : (9967/10000 : ℚ) ^ 480 ≤ c ^ 480 :=
    pow_le_pow_left₀ (by norm_num) hb.1 480
  have hgt : (1/1000 : ℚ) < (9967/10000 : ℚ) ^ 480 := by norm_num
  intro h
  exact lt_irrefl (1/1000 : ℚ) (lt_of_lt_of_le (lt_of_lt_of_le hgt hpow) h)

set_option maxHeartbeats 1000000 in
/-- C5 amended: with `g = timeToG(0.01, 1/48000)`, iterating the naive
one-pole low-pass `y += (x - y)*g` exactly 480 times with constant input 1.0
from state 0 produces a final output within 0.21 of 1.0 (and, by the
counterexample, not within 1e-3: the exact distance is `(1-g)^480`, about
0.2084). -/
theorem timeToG_scenario_within_021 :
    |Filter.Naive.constIter (Filter.timeToG (1/100) (1/48000)) 1 480 - 1|
        ≤ 21/100 := by
  have hb := timeToG_scenario_bounds
  rw [naive_constIter_closed (Filter.timeToG (1/100) (1/48000)) 480]
  generalize hcdef : (1:ℚ) - Filter.timeToG (1/100) (1/48000) = c
  rw [hcdef] at hb
  have h0 : (0:ℚ) ≤ c := le_trans (by norm_num) hb.1
  have habs : |1 - c ^ 480 - 1| = c ^ 480 := by
    have h1 : (1:ℚ) - c ^ 480 - 1 = -(c ^ 480) := by ring
    rw [h1, abs_neg, abs_of_nonneg (pow_nonneg h0 _)]
  rw [habs]
  have hpow : c ^ 480 ≤ (99674/100000 : ℚ) ^ 480 :=
    pow_le_pow_left₀ h0 hb.2 480
  have hlt : (99674/100000 : ℚ) ^ 480 ≤ 21/100 := by norm_num
  exact le_trans hpow hlt

/-- C2: for a FirFilter configured with `N >= 1` taps, every call
`process(x)` writes `x` into the two mirrored ring positions (indices
`circularBufferState` and `circularBufferState + N` of the 2N-sized
buffer), returns the convolution sum over `i` in `[0,N)` of
`coefficients[i]` times the i-th most recent input sample (the current `x`
counting as the 0th, with zeros for samples before the first call), and
advances the ring index by one modulo `N`. -/
theorem fir_process_convolution (c : List ℚ) (hn : 1 ≤ c.length)
    (xs : List ℚ) (m : ℕ) (hm : m < xs.length)
    (f : Filter.Fir.Filter ℚ) (hfc : f.coefficients = c) (x : ℚ) :
    (Filter.Fir.run (Filter.Fir.setCoefficients Filter.Fir.init c) xs).getD m 0
        = (∑ i ∈ Finset.range c.length,
            c.getD i 0 * (if i ≤ m then xs.getD (m - i) 0 else 0)) ∧
      (Filter.Fir.process f x).2.buffer
        = (f.buffer.set (f.circularBufferState + c.length) x).set
            f.circularBufferState x ∧
      (Filter.Fir.process f x).2.circularBufferState
        = (f.circularBufferState + 1) % c.length ∧
      (Filter.Fir.process f x).1
        = ∑ i ∈ Finset.range c.length,
            c.getD i 0
              * ((f.buffer.set (f.circularBufferState + c.length) x).set
                  f.circularBufferState x).getD
                  (f.circularBufferState + c.length - i) 0 := by
  have hconf := Filter.Fir.setCoefficients_fields (Filter.Fir.init (K := ℚ)) c
  have hzero : (Filter.Fir.setCoefficients (Filter.Fir.init (K := ℚ)) c).circularBufferState = 0 :=
    hconf.2.2
  have hinv : Filter.Fir.HistoryInv c 0 []
      (Filter.Fir.setCoefficients Filter.Fir.init c) := by
    have hbase := Filter.Fir.historyInv_zeroed c _ hconf.1 hconf.2.1
      (by rw [hzero]; omega)
    rwa [hzero] at hbase
  constructor
  · rw [Filter.Fir.run_eq_convOutputs c hn xs [] 0 _ hinv,
      Filter.Fir.convOutputs_getD c xs [] m hm]
    refine Finset.sum_congr rfl ?_
    intro i hi
    congr 1
    rw [List.nil_append]
    exact Filter.Fir.recentInput_take xs m i hm
  · subst hfc
    exact ⟨rfl, rfl, rfl⟩

/-- Witness for C2 at concrete inputs: one tap `[2]`, input sequence `[3]`,
output index 0, and a concrete well-formed filter processing `7`. -/
theorem fir_process_convolution_witness :
    1 ≤ ([2] : List ℚ).length ∧ 0 < ([3] : List ℚ).length ∧
      (⟨[2], [0, 0], 0⟩ : Filter.Fir.Filter ℚ).coefficients = [2] ∧
      ((Filter.Fir.run (Filter.Fir.setCoefficients Filter.Fir.init [2]) [3]).getD 0 0
          = (∑ i ∈ Finset.range ([2] : List ℚ).length,
              ([2] : List ℚ).getD i 0
                * (if i ≤ 0 then ([3] : List ℚ).getD (0 - i) 0 else 0)) ∧
        (Filter.Fir.process (⟨[2], [0, 0], 0⟩ : Filter.Fir.Filter ℚ) 7).2.buffer
          = (([0, 0] : List ℚ).set (0 + ([2] : List ℚ).length) 7).set 0 7 ∧
        (Filter.Fir.process (⟨[2], [0, 0], 0⟩ : Filter.Fir.Filter ℚ) 7).2.circularBufferState
          = (0 + 1) % ([2] : List ℚ).length ∧
        (Filter.Fir.process (⟨[2], [0, 0], 0⟩ : Filter.Fir.Filter ℚ) 7).1
          = ∑ i ∈ Finset.range ([2] : List ℚ).length,
              ([2] : List ℚ).getD i 0
                * ((([0, 0] : List ℚ).set (0 + ([2] : List ℚ).length) 7).set 0 7).getD
                    (0 + ([2] : List ℚ).length - i) 0) :=
  ⟨by norm_num, by norm_num, rfl,
    fir_process_convolution [2] (by norm_num) [3] 0 (by norm_num)
      ⟨[2], [0, 0], 0⟩ rfl 7⟩

/-- C9: mirrored-ring invariant of the FirFilter: for a filter configured
with `N >= 1` taps, after `setCoefficients`, and after any sequence of
`reset` and `process` calls, the 2N-element history buffer satisfies
`buffer[i] = buffer[i + N]` for every `i` in `[0, N)`. -/
theorem fir_mirrored_ring_invariant (c : List ℚ) (hn : 1 ≤ c.length)
    (ops : List (Filter.Fir.Op ℚ)) :
    Filter.Fir.Mirrored (Filter.Fir.setCoefficients Filter.Fir.init c) ∧
      Filter.Fir.Mirrored
        (Filter.Fir.applyOps (Filter.Fir.setCoefficients Filter.Fir.init c) ops) := by
  have hwf : Filter.Fir.WF (Filter.Fir.setCoefficients (Filter.Fir.init (K := ℚ)) c) :=
    Filter.Fir.wf_setCoefficients _ c hn
  exact ⟨hwf.1, (Filter.Fir.wf_applyOps ops _ hwf).1⟩

/-- Witness for C9 at concrete inputs: two taps `[1, 2]` and the operation
sequence `process 5; reset; process 7`. -/
theorem fir_mirrored_ring_invariant_witness :
    1 ≤ ([1, 2] : List ℚ).length ∧
      (Filter.Fir.Mirrored (Filter.Fir.setCoefficients Filter.Fir.init ([1, 2] : List ℚ)) ∧
        Filter.Fir.Mirrored (Filter.Fir.applyOps
          (Filter.Fir.setCoefficients Filter.Fir.init ([1, 2] : List ℚ))
          [Filter.Fir.Op.process 5, Filter.Fir.Op.reset, Filter.Fir.Op.process 7])) :=
  ⟨by norm_num,
    fir_mirrored_ring_invariant [1, 2] (by norm_num)
      [Filter.Fir.Op.process 5, Filter.Fir.Op.reset, Filter.Fir.Op.process 7]⟩

/-- C8: for every cutoff, duration and sample rate such that the computed
tap count is at least 1 and the pre-normalization sum of windowed-sinc
values is nonzero, the coefficient vector returned by `WindowedSincLowpass`
sums to exactly 1 under exact real arithmetic (unity DC gain). -/
theorem windowedSincLowpass_sums_to_one (cutoff duration sr : ℝ)
    (hN : 1 ≤ Filter.Fir.wslTapCount duration sr)
    (hsum : (Filter.Fir.wslKernel cutoff duration sr).sum ≠ 0) :
    (Filter.Fir.WindowedSincLowpass cutoff duration sr).sum = 1 := by
  show ((Filter.Fir.wslKernel cutoff duration sr).map
      (fun c => c / (Filter.Fir.wslKernel cutoff duration sr).sum)).sum = 1
  rw [Filter.Fir.sum_map_div, div_self hsum]

/-- Witness for C8 at a concrete input: cutoff 0, duration 1, sample rate 3
(tap count 3, all sinc arguments zero, window values summing to a nonzero
rational). -/
theorem windowedSincLowpass_sums_to_one_witness :
    1 ≤ Filter.Fir.wslTapCount 1 3 ∧
      (Filter.Fir.wslKernel 0 1 3).sum ≠ 0 ∧
      (Filter.Fir.WindowedSincLowpass 0 1 3).sum = 1 := by
  have hc2 : Real.cos (Real.pi * 2) = 1 := by
    rw [mul_comm]
    exact Real.cos_two_pi
  have hc3 : Real.cos (Real.pi * 3) = -1 := by
    have he : Real.pi * 3 = Real.pi + 2 * Real.pi := by ring
    rw [he, Real.cos_add_two_pi, Real.cos_pi]
  have hc4 : Real.cos (2 * Real.pi * 2) = 1 := by
    have he : 2 * Real.pi * 2 = 2 * Real.pi + 2 * Real.pi := by ring
    rw [he, Real.cos_add_two_pi, Real.cos_two_pi]
  have hc6 : Real.cos (2 * Real.pi * 3) = 1 := by
    have he : 2 * Real.pi * 3 = 2 * Real.pi * 2 + 2 * Real.pi := by ring
    rw [he, Real.cos_add_two_pi, hc4]
  have hN3 : Filter.Fir.wslTapCount 1 3 = 3 := by
    norm_num [Filter.Fir.wslTapCount]
  have h1 : 1 ≤ Filter.Fir.wslTapCount 1 3 := by
    rw [hN3]
    norm_num
  have h2 : (Filter.Fir.wslKernel 0 1 3).sum ≠ 0 := by
    rw [Filter.Fir.wslKernel, hN3]
    norm_num [List.range_succ, hc2, hc3, hc4, hc6]
  exact ⟨h1, h2, windowedSincLowpass_sums_to_one 0 1 3 h1 h2⟩

end AthDsp
